import Mathlib

/-
Verification of the flake command layer (src/nix/flake.cc): registry
mutation commands (add, remove, pin), the lock-file update command, the
breadth-first dependency listing, and flake.nix initialization.

The commands are embedded directly from the source.  External collaborators
that live outside the given source tree (the FlakeRef string parser, registry
persistence, and the evaluator's getFlake) are modelled from the spec, each
marked `Modelled from the spec:` in its doc comment.  Persistence is made
explicit: a command's effect on the on-disk user registry is the registry
value it passes to writeRegistry; a command that throws before writing
returns an error and no registry value.
-/

set_option autoImplicit false

namespace NixFlake

/-- Modelled from the spec: the kind of a Reference is one of Path,
DirectURI, or Alias (spec, Data Model). -/
inductive RefKind where
  | Path
  | DirectURI
  | Alias
deriving DecidableEq, Repr

/-- Modelled from the spec: a Reference (FlakeRef in the source) is an
immutable value with a kind, a string locator, an optional revision and an
optional symbolic branch/ref.  Equality is structural on these fields. -/
structure FlakeRef where
  kind : RefKind
  locator : String
  revision : Option String
  branchOrRef : Option String
deriving DecidableEq, Repr

/-- The slash test of the command layer, `flakeUri.find('/') != npos` in the
source: whether the string has a '/' character. -/
def containsSlash (s : String) : Bool :=
  s.data.contains '/'

/-- Modelled from the spec: the FlakeRef string constructor is outside the
given source.  The two-argument C++ form `FlakeRef(s, true)` (used by the
command layer exactly when the argument looks path-like) yields a direct
path Reference; the one-argument form `FlakeRef(s)` yields a non-path
Reference, a DirectURI when the string contains a slash and an Alias
otherwise. -/
def FlakeRef.parse (s : String) (allowRelative : Bool) : FlakeRef :=
  if allowRelative then ⟨RefKind.Path, s, none, none⟩
  else if containsSlash s then ⟨RefKind.DirectURI, s, none, none⟩
  else ⟨RefKind.Alias, s, none, none⟩

/-- Registry entries: an ordered key-value mapping from alias Reference to
target Reference, as in `FlakeRegistry::entries` (a `std::map`).  It is
embedded as an association list; `entriesFind`, `entriesErase` and
`entriesInsertOrAssign` below give the `find`, `erase` and
`insert_or_assign` map operations the commands use. -/
structure FlakeRegistry where
  entries : List (FlakeRef × FlakeRef)
deriving DecidableEq, Repr

/-- Lookup of a key in the entry list (`entries.find(k)` on the map). -/
def entriesFind (k : FlakeRef) : List (FlakeRef × FlakeRef) → Option FlakeRef
  | [] => none
  | e :: rest => if e.1 = k then some e.2 else entriesFind k rest

/-- Removal of a key from the entry list (`entries.erase(k)` on the map). -/
def entriesErase (k : FlakeRef) : List (FlakeRef × FlakeRef) → List (FlakeRef × FlakeRef)
  | [] => []
  | e :: rest => if e.1 = k then entriesErase k rest else e :: entriesErase k rest

/-- Upsert of a key (`entries.insert_or_assign(k, v)` on the map): any
existing binding of `k` is replaced by `(k, v)`. -/
def entriesInsertOrAssign (k v : FlakeRef) (l : List (FlakeRef × FlakeRef)) :
    List (FlakeRef × FlakeRef) :=
  entriesErase k l ++ [(k, v)]

/-- Modelled from the spec: writeRegistry is outside the given source; a
Registry serializes as an ordered sequence of
(aliasLocator, targetLocator, targetRevision?) records (spec, External
Interfaces).  One record per line. -/
def serializeEntry (e : FlakeRef × FlakeRef) : String :=
  e.1.locator ++ " " ++ e.2.locator ++
    (match e.2.revision with
     | some rev => " " ++ rev
     | none => "")

/-- Modelled from the spec: the persisted byte form of a registry is the
serialized record sequence. -/
def writeRegistry (reg : FlakeRegistry) : String :=
  String.intercalate "\n" (reg.entries.map serializeEntry)

/-- CmdFlakeAdd::run: parse the alias, read the user registry, erase any
entry for the alias, insert_or_assign (alias, uri), write the registry.
The returned registry is the value passed to writeRegistry. -/
def cmdFlakeAddRun (aliasArg uriArg : String) (userRegistry : FlakeRegistry) : FlakeRegistry :=
  let aliasRef := FlakeRef.parse aliasArg false
  ⟨entriesInsertOrAssign aliasRef (FlakeRef.parse uriArg false)
    (entriesErase aliasRef userRegistry.entries)⟩

/-- CmdFlakeRemove::run: read the user registry, erase the alias, write the
registry.  The returned registry is the value passed to writeRegistry. -/
def cmdFlakeRemoveRun (aliasArg : String) (userRegistry : FlakeRegistry) : FlakeRegistry :=
  ⟨entriesErase (FlakeRef.parse aliasArg false) userRegistry.entries⟩

/-- The registry state a pin command sees: the persisted user registry and
the (read-only) global registry. -/
structure RegState where
  user : FlakeRegistry
  global : FlakeRegistry
deriving DecidableEq, Repr

/-- Error taxonomy of the spec for the errors the embedded commands throw. -/
inductive FlakeError where
  | unknownAliasError (aliasArg : String)
  | notUpdatableError (ref : FlakeRef)
deriving DecidableEq, Repr

/-- CmdFlakePin::run: look up the alias in the user registry; if found,
overwrite that entry's target with the resolved concrete reference
(`getFlake(...).sourceInfo.resolvedRef`, modelled by the collaborator
function `resolve`) and write the user registry.  Otherwise look it up in
the global registry; if found there, insert_or_assign the resolved target
into the user registry and write it.  Otherwise throw.  Only the user
registry is ever written; on error nothing is written. -/
def cmdFlakePinRun (resolve : FlakeRef → FlakeRef) (aliasArg : String) (st : RegState) :
    Except FlakeError RegState :=
  let aliasRef := FlakeRef.parse aliasArg false
  match entriesFind aliasRef st.user.entries with
  | some target =>
      Except.ok { st with
        user := ⟨entriesInsertOrAssign aliasRef (resolve target) st.user.entries⟩ }
  | none =>
      match entriesFind aliasRef st.global.entries with
      | some target =>
          Except.ok { st with
            user := ⟨entriesInsertOrAssign aliasRef (resolve target) st.user.entries⟩ }
      | none => Except.error (FlakeError.unknownAliasError aliasArg)

/-- Outcome of CmdFlakeUpdate::run: either updateLockFile was invoked on the
reference, or the command threw without updating anything. -/
inductive UpdateResult where
  | updated (ref : FlakeRef)
  | failed (err : FlakeError)
deriving DecidableEq, Repr

/-- CmdFlakeUpdate::run: invoke updateLockFile only when the flake reference
holds the IsPath variant; otherwise throw. -/
def cmdFlakeUpdateRun (flakeRef : FlakeRef) : UpdateResult :=
  match flakeRef.kind with
  | RefKind.Path => UpdateResult.updated flakeRef
  | RefKind.DirectURI => UpdateResult.failed (FlakeError.notUpdatableError flakeRef)
  | RefKind.Alias => UpdateResult.failed (FlakeError.notUpdatableError flakeRef)

/-- Outcome of CmdFlakeInit::run: one of the two errors (thrown before any
write), or the template file was written.  `wroteTemplate` is the only
outcome that writes. -/
inductive InitResult where
  | errNotGitRepo
  | errFlakeNixExists
  | wroteTemplate
deriving DecidableEq, Repr

/-- CmdFlakeInit::run: fail if the current directory has no .git entry;
then fail if flake.nix already exists; otherwise write the template.  The
two Booleans are the results of the two pathExists collaborator calls. -/
def cmdFlakeInitRun (gitDirExists flakeNixExists : Bool) : InitResult :=
  if !gitDirExists then InitResult.errNotGitRepo
  else if flakeNixExists then InitResult.errFlakeNixExists
  else InitResult.wroteTemplate

/-- Modelled from the spec: SourceInfo carries the concrete resolved
reference, an optional revision count and the materialized store path. -/
structure SourceInfo where
  resolvedRef : FlakeRef
  revCount : Option Nat
  storePath : String
deriving DecidableEq, Repr

/-- Modelled from the spec: a Flake has an id, a description, an epoch and
its source info (the declared dependency references live in the resolved
graph node, not here, matching what the deps command reads). -/
structure Flake where
  id : String
  description : String
  epoch : Nat
  sourceInfo : SourceInfo
deriving DecidableEq, Repr

/-- Modelled from the spec: a NonFlake is a leaf dependency with an alias
and its source info. -/
structure NonFlake where
  «alias» : String
  sourceInfo : SourceInfo
deriving DecidableEq, Repr

/-- Modelled from the spec: a ResolvedFlake graph node holds its Flake, its
non-flake dependencies, and its flake dependencies as an ordered name-keyed
mapping (`flakeDeps`). -/
inductive ResolvedFlake where
  | mk (flake : Flake) (nonFlakeDeps : List NonFlake) (flakeDeps : List (String × ResolvedFlake))

/-- Number of graph nodes below (and including) a resolved flake; the
termination measure of the breadth-first traversal. -/
def ResolvedFlake.size : ResolvedFlake → Nat
  | .mk _ _ deps => 1 + (deps.attach.map (fun p => p.1.2.size)).sum
decreasing_by
  have h1 : sizeOf p.1 < sizeOf deps := List.sizeOf_lt_of_mem p.2
  have h2 : sizeOf p.1.2 < sizeOf p.1 := by cases p.1; simp
  simp
  omega

/-- Projection `resFlake.flake`. -/
def ResolvedFlake.flake : ResolvedFlake → Flake
  | .mk f _ _ => f

/-- Projection `resFlake.nonFlakeDeps`. -/
def ResolvedFlake.nonFlakeDeps : ResolvedFlake → List NonFlake
  | .mk _ nf _ => nf

/-- Projection `resFlake.flakeDeps`. -/
def ResolvedFlake.flakeDeps : ResolvedFlake → List (String × ResolvedFlake)
  | .mk _ _ deps => deps

/-- Total node count of a work queue. -/
def queueSize : List ResolvedFlake → Nat
  | [] => 0
  | r :: rest => r.size + queueSize rest

/-- One line of output of the deps command: printNonFlakeInfo prints the
non-flake dependency, printFlakeInfo prints a flake. -/
inductive DepInfo where
  | nonFlakeInfo (n : NonFlake)
  | flakeInfo (f : Flake)
deriving DecidableEq, Repr

/-- CmdFlakeDeps::run, from the initial queue contents: while the queue is
non-empty, pop the front node, print each of its non-flake deps, then for
each flake dep print its flake info and push the dep onto the queue.  The
command starts from the queue holding only the resolved root. -/
def depsEmit : List ResolvedFlake → List DepInfo
  | [] => []
  | r :: todo =>
      r.nonFlakeDeps.map DepInfo.nonFlakeInfo ++
      r.flakeDeps.map (fun p => DepInfo.flakeInfo p.2.flake) ++
      depsEmit (todo ++ r.flakeDeps.map (fun p => p.2))
termination_by l => queueSize l
decreasing_by
  have happ : ∀ (l1 l2 : List ResolvedFlake),
      queueSize (l1 ++ l2) = queueSize l1 + queueSize l2 := by
    intro l1 l2
    induction l1 with
    | nil => simp [queueSize]
    | cons a rest ih => simp [queueSize, ih]; omega
  have hch : ∀ (deps : List (String × ResolvedFlake)),
      queueSize (deps.map (fun p => p.2)) = (deps.map (fun p => p.2.size)).sum := by
    intro deps
    induction deps with
    | nil => simp [queueSize]
    | cons p rest ih => simp [queueSize, ih]
  rw [happ, hch]
  cases r with
  | mk f nf deps =>
    have hsz : (ResolvedFlake.mk f nf deps).size = 1 + (deps.map (fun p => p.2.size)).sum := by
      rw [ResolvedFlake.size]
      congr 1
      rw [List.map_attach]
      simp
    simp [ResolvedFlake.flakeDeps, queueSize, hsz]
    omega

/-- CmdFlakeDeps::run proper: the queue is seeded with the resolved root
flake and drained as in depsEmit. -/
def cmdFlakeDepsRun (resolvedRoot : ResolvedFlake) : List DepInfo :=
  depsEmit [resolvedRoot]

/-- Default value of the flake-uri argument in FlakeCommand. -/
def defaultFlakeUri : String := "."

/-- FlakeCommand::getFlakeRef: if the argument contains a slash or equals
".", construct the reference with the path-allowing two-argument FlakeRef
constructor; otherwise with the one-argument constructor. -/
def getFlakeRef (flakeUri : String) : FlakeRef :=
  if containsSlash flakeUri || flakeUri == "." then FlakeRef.parse flakeUri true
  else FlakeRef.parse flakeUri false

/-- Concrete alias reference used in the witness scenarios. -/
def exAliasRef : FlakeRef := FlakeRef.parse "nixpkgs" false

/-- Concrete target reference used in the witness scenarios. -/
def exTargetRef : FlakeRef := ⟨RefKind.DirectURI, "github:NixOS/nixpkgs", none, none⟩

/-- Concrete resolution collaborator for witnesses: populate the revision. -/
def exResolve : FlakeRef → FlakeRef :=
  fun r => { r with revision := some "abc123" }

/-- User registry holding one unrelated entry (alias absent). -/
def exOtherRegistry : FlakeRegistry :=
  ⟨[(FlakeRef.parse "home" false, FlakeRef.parse "github:home/mgr" false)]⟩

/-- User registry holding a pre-existing entry for the alias. -/
def exPresentRegistry : FlakeRegistry :=
  ⟨[(exAliasRef, FlakeRef.parse "github:aaa/old" false)]⟩

/-- Pin scenario: alias in the user registry. -/
def exPinStUser : RegState := ⟨⟨[(exAliasRef, exTargetRef)]⟩, ⟨[]⟩⟩

/-- Pin scenario: alias only in the global registry. -/
def exPinStGlobal : RegState := ⟨⟨[]⟩, ⟨[(exAliasRef, exTargetRef)]⟩⟩

/-- The state pinning exPinStUser persists. -/
def exPinStUserPinned : RegState :=
  ⟨⟨[(exAliasRef, exResolve exTargetRef)]⟩, ⟨[]⟩⟩

/-- Source info of the dependency-listing scenario nodes. -/
def exSourceInfo (uri : String) : SourceInfo :=
  ⟨⟨RefKind.DirectURI, uri, some "rev", none⟩, some 1, "/nix/store/x"⟩

/-- Flake metadata of the dependency-listing scenario nodes. -/
def exFlake (ident uri : String) : Flake :=
  ⟨ident, "", 2019, exSourceInfo uri⟩

/-- Leaf flake dependency depC of the scenario graph. -/
def exDepC : ResolvedFlake := ResolvedFlake.mk (exFlake "depC" "github:c/c") [] []

/-- Leaf flake dependency depB of the scenario graph. -/
def exDepB : ResolvedFlake := ResolvedFlake.mk (exFlake "depB" "github:b/b") [] []

/-- Non-flake dependency of depA in the scenario graph. -/
def exNonFlakeX : NonFlake := ⟨"nfX", exSourceInfo "github:x/x"⟩

/-- Flake dependency depA of the scenario graph, itself depending on depC. -/
def exDepA : ResolvedFlake :=
  ResolvedFlake.mk (exFlake "depA" "github:a/a") [exNonFlakeX] [("depC", exDepC)]

/-- Root of the scenario graph: root depends on depA and depB. -/
def exRoot : ResolvedFlake :=
  ResolvedFlake.mk (exFlake "root" "github:r/r") [] [("depA", exDepA), ("depB", exDepB)]

theorem ResolvedFlake.size_eq (f : Flake) (nf : List NonFlake)
    (deps : List (String × ResolvedFlake)) :
    (ResolvedFlake.mk f nf deps).size = 1 + (deps.map (fun p => p.2.size)).sum := by
  rw [ResolvedFlake.size]
  congr 1
  rw [List.map_attach]
  simp

theorem queueSize_append (l1 l2 : List ResolvedFlake) :
    queueSize (l1 ++ l2) = queueSize l1 + queueSize l2 := by
  induction l1 with
  | nil => simp [queueSize]
  | cons r rest ih => simp [queueSize, ih]; omega

theorem queueSize_children (deps : List (String × ResolvedFlake)) :
    queueSize (deps.map (fun p => p.2)) = (deps.map (fun p => p.2.size)).sum := by
  induction deps with
  | nil => simp [queueSize]
  | cons p rest ih => simp [queueSize, ih]

theorem depsEmit_nil : depsEmit [] = [] := by
  rw [depsEmit]

theorem depsEmit_cons (r : ResolvedFlake) (todo : List ResolvedFlake) :
    depsEmit (r :: todo) =
      r.nonFlakeDeps.map DepInfo.nonFlakeInfo ++
      r.flakeDeps.map (fun p => DepInfo.flakeInfo p.2.flake) ++
      depsEmit (todo ++ r.flakeDeps.map (fun p => p.2)) := by
  rw [depsEmit]

theorem entriesFind_erase_self (k : FlakeRef) (l : List (FlakeRef × FlakeRef)) :
    entriesFind k (entriesErase k l) = none := by
  induction l with
  | nil => rfl
  | cons e rest ih =>
    by_cases h : e.1 = k
    · simp [entriesErase, h, ih]
    · simp [entriesErase, entriesFind, h, ih]

theorem entriesFind_erase_ne (k kk : FlakeRef) (h : kk ≠ k) (l : List (FlakeRef × FlakeRef)) :
    entriesFind kk (entriesErase k l) = entriesFind kk l := by
  induction l with
  | nil => rfl
  | cons e rest ih =>
    by_cases h1 : e.1 = k
    · have h2 : ¬ e.1 = kk := by
        rw [h1]
        exact fun hh => h hh.symm
      have h3 : ¬ k = kk := fun hh => h hh.symm
      simp [entriesErase, entriesFind, h1, h2, h3, ih]
    · simp [entriesErase, entriesFind, h1, ih]

theorem entriesFind_append_of_none (k : FlakeRef) (l1 l2 : List (FlakeRef × FlakeRef))
    (h : entriesFind k l1 = none) :
    entriesFind k (l1 ++ l2) = entriesFind k l2 := by
  induction l1 with
  | nil => rfl
  | cons e rest ih =>
    by_cases h1 : e.1 = k
    · simp [entriesFind, h1] at h
    · rw [entriesFind, if_neg h1] at h
      simp [entriesFind, h1, ih h]

theorem entriesErase_append (k : FlakeRef) (l1 l2 : List (FlakeRef × FlakeRef)) :
    entriesErase k (l1 ++ l2) = entriesErase k l1 ++ entriesErase k l2 := by
  induction l1 with
  | nil => rfl
  | cons e rest ih =>
    by_cases h1 : e.1 = k
    · simp [entriesErase, h1, ih]
    · simp [entriesErase, h1, ih]

theorem entriesErase_erase (k : FlakeRef) (l : List (FlakeRef × FlakeRef)) :
    entriesErase k (entriesErase k l) = entriesErase k l := by
  induction l with
  | nil => rfl
  | cons e rest ih =>
    by_cases h1 : e.1 = k
    · simp [entriesErase, h1, ih]
    · simp [entriesErase, h1, ih]

theorem entriesErase_of_find_none (k : FlakeRef) (l : List (FlakeRef × FlakeRef))
    (h : entriesFind k l = none) :
    entriesErase k l = l := by
  induction l with
  | nil => rfl
  | cons e rest ih =>
    by_cases h1 : e.1 = k
    · simp [entriesFind, h1] at h
    · rw [entriesFind, if_neg h1] at h
      simp [entriesErase, h1, ih h]

theorem entriesFind_insertOrAssign_self (k v : FlakeRef) (l : List (FlakeRef × FlakeRef)) :
    entriesFind k (entriesInsertOrAssign k v l) = some v := by
  rw [entriesInsertOrAssign, entriesFind_append_of_none k _ _ (entriesFind_erase_self k l)]
  simp [entriesFind]

theorem entriesFind_insertOrAssign_ne (k kk v : FlakeRef) (h : kk ≠ k)
    (l : List (FlakeRef × FlakeRef)) :
    entriesFind kk (entriesInsertOrAssign k v l) = entriesFind kk l := by
  rw [entriesInsertOrAssign]
  have h3 : ¬ k = kk := fun hh => h hh.symm
  induction l with
  | nil => simp [entriesErase, entriesFind, h3]
  | cons e rest ih =>
    by_cases h1 : e.1 = k
    · have h2 : ¬ e.1 = kk := by
        rw [h1]
        exact fun hh => h hh.symm
      simp [entriesErase, entriesFind, h1, h2, h3, ih]
    · simp [entriesErase, entriesFind, h1, ih]

theorem entriesErase_insertOrAssign (k v : FlakeRef) (l : List (FlakeRef × FlakeRef)) :
    entriesErase k (entriesInsertOrAssign k v l) = entriesErase k l := by
  rw [entriesInsertOrAssign, entriesErase_append, entriesErase_erase]
  simp [entriesErase]

theorem insertOrAssign_insertOrAssign (k v : FlakeRef) (l : List (FlakeRef × FlakeRef)) :
    entriesInsertOrAssign k v (entriesInsertOrAssign k v l) = entriesInsertOrAssign k v l := by
  conv =>
    lhs
    rw [entriesInsertOrAssign, entriesErase_insertOrAssign]
  rw [entriesInsertOrAssign]

/-- C2: the explicit update-lock-file operation invokes the lock-file update
exactly when the root reference is a local path; for any non-path root
(remote URI or alias) it fails with NotUpdatableError and performs no
update. -/
theorem update_only_for_local_path (flakeRef : FlakeRef) :
    (cmdFlakeUpdateRun flakeRef = UpdateResult.updated flakeRef ↔ flakeRef.kind = RefKind.Path)
    ∧ (flakeRef.kind ≠ RefKind.Path →
        cmdFlakeUpdateRun flakeRef = UpdateResult.failed (FlakeError.notUpdatableError flakeRef)) := by
  obtain ⟨k, loc, rev, br⟩ := flakeRef
  cases k <;> simp [cmdFlakeUpdateRun]

/-- Witness for C2 at a remote URI reference: the kind is not Path and the
command fails with NotUpdatableError. -/
theorem update_only_for_local_path_witness :
    exTargetRef.kind ≠ RefKind.Path ∧
    cmdFlakeUpdateRun exTargetRef = UpdateResult.failed (FlakeError.notUpdatableError exTargetRef) :=
  ⟨by decide, (update_only_for_local_path exTargetRef).2 (by decide)⟩

/-- C5: add(alias, target) removes any existing user-registry entry for the
alias, inserts (alias, target), and persists the result; add is idempotent,
on the registry value and on its persisted byte form. -/
theorem add_upsert_idempotent (aliasArg uriArg : String) (u : FlakeRegistry) :
    entriesFind (FlakeRef.parse aliasArg false) (cmdFlakeAddRun aliasArg uriArg u).entries =
      some (FlakeRef.parse uriArg false)
    ∧ (∀ k, k ≠ FlakeRef.parse aliasArg false →
        entriesFind k (cmdFlakeAddRun aliasArg uriArg u).entries = entriesFind k u.entries)
    ∧ cmdFlakeAddRun aliasArg uriArg (cmdFlakeAddRun aliasArg uriArg u) =
        cmdFlakeAddRun aliasArg uriArg u
    ∧ writeRegistry (cmdFlakeAddRun aliasArg uriArg (cmdFlakeAddRun aliasArg uriArg u)) =
        writeRegistry (cmdFlakeAddRun aliasArg uriArg u) := by
  have hidem : cmdFlakeAddRun aliasArg uriArg (cmdFlakeAddRun aliasArg uriArg u) =
      cmdFlakeAddRun aliasArg uriArg u := by
    simp only [cmdFlakeAddRun]
    rw [entriesErase_insertOrAssign, entriesErase_erase]
  refine ⟨?_, ?_, hidem, by rw [hidem]⟩
  · simp only [cmdFlakeAddRun]
    exact entriesFind_insertOrAssign_self _ _ _
  · intro k hk
    simp only [cmdFlakeAddRun]
    rw [entriesFind_insertOrAssign_ne _ _ _ hk, entriesFind_erase_ne _ _ hk]

/-- Witness for C5: a key different from the added alias is preserved, and
re-adding the same pair yields the same registry. -/
theorem add_upsert_idempotent_witness :
    FlakeRef.parse "home" false ≠ FlakeRef.parse "nixpkgs" false ∧
    entriesFind (FlakeRef.parse "home" false)
        (cmdFlakeAddRun "nixpkgs" "github:bbb/new" exOtherRegistry).entries =
      entriesFind (FlakeRef.parse "home" false) exOtherRegistry.entries ∧
    cmdFlakeAddRun "nixpkgs" "github:bbb/new"
        (cmdFlakeAddRun "nixpkgs" "github:bbb/new" exOtherRegistry) =
      cmdFlakeAddRun "nixpkgs" "github:bbb/new" exOtherRegistry :=
  ⟨by decide,
   (add_upsert_idempotent "nixpkgs" "github:bbb/new" exOtherRegistry).2.1
     (FlakeRef.parse "home" false) (by decide),
   (add_upsert_idempotent "nixpkgs" "github:bbb/new" exOtherRegistry).2.2.1⟩

/-- C8: remove(alias) deletes the entry for the alias if present and
persists; other keys are untouched; when the alias is absent the command
does not fail and persists the registry unchanged (same bytes). -/
theorem remove_absent_not_error (aliasArg : String) (u : FlakeRegistry) :
    entriesFind (FlakeRef.parse aliasArg false) (cmdFlakeRemoveRun aliasArg u).entries = none
    ∧ (∀ k, k ≠ FlakeRef.parse aliasArg false →
        entriesFind k (cmdFlakeRemoveRun aliasArg u).entries = entriesFind k u.entries)
    ∧ (entriesFind (FlakeRef.parse aliasArg false) u.entries = none →
        cmdFlakeRemoveRun aliasArg u = u ∧
        writeRegistry (cmdFlakeRemoveRun aliasArg u) = writeRegistry u) := by
  refine ⟨?_, ?_, ?_⟩
  · simp only [cmdFlakeRemoveRun]
    exact entriesFind_erase_self _ _
  · intro k hk
    simp only [cmdFlakeRemoveRun]
    exact entriesFind_erase_ne _ _ hk _
  · intro h
    have heq : cmdFlakeRemoveRun aliasArg u = u := by
      simp only [cmdFlakeRemoveRun]
      rw [entriesErase_of_find_none _ _ h]
    exact ⟨heq, by rw [heq]⟩

/-- Witness for C8: removing an absent alias leaves the registry unchanged
and is not an error. -/
theorem remove_absent_not_error_witness :
    entriesFind (FlakeRef.parse "nixpkgs" false) exOtherRegistry.entries = none ∧
    cmdFlakeRemoveRun "nixpkgs" exOtherRegistry = exOtherRegistry :=
  ⟨by decide, ((remove_absent_not_error "nixpkgs" exOtherRegistry).2.2 (by decide)).1⟩

/-- C9: the command layer classifies the flake-uri argument before any
registry lookup: an argument with a '/' character or equal to "." goes
through the path-allowing constructor and yields a direct path reference;
any other argument yields a non-path (alias or URI form) reference; the
default argument is ".". -/
theorem getFlakeRef_classification :
    (∀ s : String, (containsSlash s = true ∨ s = ".") →
        getFlakeRef s = FlakeRef.parse s true ∧ (getFlakeRef s).kind = RefKind.Path)
    ∧ (∀ s : String, containsSlash s = false → s ≠ "." →
        getFlakeRef s = FlakeRef.parse s false ∧ (getFlakeRef s).kind ≠ RefKind.Path)
    ∧ getFlakeRef defaultFlakeUri = FlakeRef.parse "." true := by
  refine ⟨?_, ?_, rfl⟩
  · intro s hs
    have hcond : (containsSlash s || s == ".") = true := by
      cases hs with
      | inl h => simp [h]
      | inr h => simp [h]
    refine ⟨by simp [getFlakeRef, hcond], ?_⟩
    simp [getFlakeRef, hcond, FlakeRef.parse]
  · intro s h1 h2
    have hcond : (containsSlash s || s == ".") = false := by
      simp [h1, h2]
    refine ⟨by simp [getFlakeRef, hcond], ?_⟩
    simp [getFlakeRef, hcond, FlakeRef.parse, h1, h2]

/-- Witness for C9: "foo/bar" is parsed as a path reference, "nixpkgs" as a
non-path reference. -/
theorem getFlakeRef_classification_witness :
    getFlakeRef "foo/bar" = FlakeRef.parse "foo/bar" true ∧
    (getFlakeRef "nixpkgs").kind ≠ RefKind.Path :=
  ⟨(getFlakeRef_classification.1 "foo/bar" (Or.inl (by decide))).1,
   (getFlakeRef_classification.2.1 "nixpkgs" (by decide) (by decide)).2⟩

/-- C10: init fails (writing nothing) when the current directory is not a
Git repository; then fails (writing nothing) when flake.nix already exists;
it writes the template exactly when both checks pass. -/
theorem init_checks (gitDirExists flakeNixExists : Bool) :
    (gitDirExists = false → cmdFlakeInitRun gitDirExists flakeNixExists = InitResult.errNotGitRepo)
    ∧ (gitDirExists = true → flakeNixExists = true →
        cmdFlakeInitRun gitDirExists flakeNixExists = InitResult.errFlakeNixExists)
    ∧ (cmdFlakeInitRun gitDirExists flakeNixExists = InitResult.wroteTemplate ↔
        gitDirExists = true ∧ flakeNixExists = false) := by
  cases gitDirExists <;> cases flakeNixExists <;> simp [cmdFlakeInitRun]

/-- Witness for C10: no .git gives the not-a-repository error; an existing
flake.nix gives the already-exists error. -/
theorem init_checks_witness :
    cmdFlakeInitRun false false = InitResult.errNotGitRepo ∧
    cmdFlakeInitRun true true = InitResult.errFlakeNixExists :=
  ⟨(init_checks false false).1 rfl, (init_checks true true).2.1 rfl rfl⟩

/-- C4 counterexample: when an entry for the alias already exists, add then
remove does NOT restore the pre-add persisted registry: the pre-existing
entry is lost. -/
theorem add_remove_not_restoring_when_present :
    ¬ writeRegistry (cmdFlakeRemoveRun "nixpkgs"
        (cmdFlakeAddRun "nixpkgs" "github:bbb/new" exPresentRegistry)) =
      writeRegistry exPresentRegistry := by
  decide

/-- C4 (amended): add(alias, target) followed by remove(alias) restores the
persisted user registry byte-equal to its pre-add state, provided no entry
for that alias existed before the add. -/
theorem add_remove_restores_when_absent (aliasArg uriArg : String) (u : FlakeRegistry)
    (h : entriesFind (FlakeRef.parse aliasArg false) u.entries = none) :
    cmdFlakeRemoveRun aliasArg (cmdFlakeAddRun aliasArg uriArg u) = u ∧
    writeRegistry (cmdFlakeRemoveRun aliasArg (cmdFlakeAddRun aliasArg uriArg u)) =
      writeRegistry u := by
  have heq : cmdFlakeRemoveRun aliasArg (cmdFlakeAddRun aliasArg uriArg u) = u := by
    simp only [cmdFlakeRemoveRun, cmdFlakeAddRun]
    rw [entriesErase_insertOrAssign, entriesErase_erase, entriesErase_of_find_none _ _ h]
  exact ⟨heq, by rw [heq]⟩

/-- Witness for the amended C4: a registry without the alias is restored
byte-for-byte by add then remove. -/
theorem add_remove_restores_when_absent_witness :
    entriesFind (FlakeRef.parse "nixpkgs" false) exOtherRegistry.entries = none ∧
    writeRegistry (cmdFlakeRemoveRun "nixpkgs"
        (cmdFlakeAddRun "nixpkgs" "github:bbb/new" exOtherRegistry)) =
      writeRegistry exOtherRegistry :=
  ⟨by decide,
   (add_remove_restores_when_absent "nixpkgs" "github:bbb/new" exOtherRegistry (by decide)).2⟩

/-- C1: pin behaves by three exclusive cases.  Alias in the user registry:
its target is resolved (revision populated, assuming the resolution
collaborator populates revisions) and the entry is overwritten and
persisted, the global registry untouched.  Alias only in the global
registry: a new user entry with the resolved target is inserted and
persisted.  Alias in neither: UnknownAliasError and nothing persisted (the
command returns the error without producing a registry to write). -/
theorem pin_three_exclusive_cases (resolve : FlakeRef → FlakeRef) (aliasArg : String)
    (st : RegState) (hconc : ∀ r, ((resolve r).revision).isSome = true) :
    (∀ t, entriesFind (FlakeRef.parse aliasArg false) st.user.entries = some t →
        cmdFlakePinRun resolve aliasArg st =
          Except.ok ⟨⟨entriesInsertOrAssign (FlakeRef.parse aliasArg false) (resolve t)
            st.user.entries⟩, st.global⟩
        ∧ ((resolve t).revision).isSome = true)
    ∧ (entriesFind (FlakeRef.parse aliasArg false) st.user.entries = none →
        ∀ t, entriesFind (FlakeRef.parse aliasArg false) st.global.entries = some t →
          cmdFlakePinRun resolve aliasArg st =
            Except.ok ⟨⟨entriesInsertOrAssign (FlakeRef.parse aliasArg false) (resolve t)
              st.user.entries⟩, st.global⟩
          ∧ entriesFind (FlakeRef.parse aliasArg false)
              (entriesInsertOrAssign (FlakeRef.parse aliasArg false) (resolve t) st.user.entries)
              = some (resolve t)
          ∧ ((resolve t).revision).isSome = true)
    ∧ (entriesFind (FlakeRef.parse aliasArg false) st.user.entries = none →
        entriesFind (FlakeRef.parse aliasArg false) st.global.entries = none →
          cmdFlakePinRun resolve aliasArg st =
            Except.error (FlakeError.unknownAliasError aliasArg)) := by
  refine ⟨?_, ?_, ?_⟩
  · intro t ht
    refine ⟨?_, hconc t⟩
    simp [cmdFlakePinRun, ht]
  · intro hu t hg
    refine ⟨?_, entriesFind_insertOrAssign_self _ _ _, hconc t⟩
    simp [cmdFlakePinRun, hu, hg]
  · intro hu hg
    simp [cmdFlakePinRun, hu, hg]

/-- Witness for C1 (first case): pinning an alias present in the user
registry overwrites its entry with the revision-populated resolved target. -/
theorem pin_three_exclusive_cases_witness :
    entriesFind (FlakeRef.parse "nixpkgs" false) exPinStUser.user.entries = some exTargetRef ∧
    (cmdFlakePinRun exResolve "nixpkgs" exPinStUser =
        Except.ok ⟨⟨entriesInsertOrAssign (FlakeRef.parse "nixpkgs" false)
          (exResolve exTargetRef) exPinStUser.user.entries⟩, exPinStUser.global⟩
      ∧ ((exResolve exTargetRef).revision).isSome = true) :=
  ⟨by decide,
   (pin_three_exclusive_cases exResolve "nixpkgs" exPinStUser (fun _ => rfl)).1
     exTargetRef (by decide)⟩

/-- C6: pin never writes to the global registry: every successful run keeps
the global registry unchanged, and for an alias present only in the global
registry a new user entry with the resolved target appears while the global
registry stays as it was. -/
theorem pin_frame_global_untouched (resolve : FlakeRef → FlakeRef) (aliasArg : String)
    (st : RegState) :
    (∀ st2, cmdFlakePinRun resolve aliasArg st = Except.ok st2 → st2.global = st.global)
    ∧ (entriesFind (FlakeRef.parse aliasArg false) st.user.entries = none →
        ∀ t, entriesFind (FlakeRef.parse aliasArg false) st.global.entries = some t →
          ∃ st2, cmdFlakePinRun resolve aliasArg st = Except.ok st2
            ∧ entriesFind (FlakeRef.parse aliasArg false) st2.user.entries = some (resolve t)
            ∧ st2.global = st.global) := by
  constructor
  · intro st2 h
    cases hu : entriesFind (FlakeRef.parse aliasArg false) st.user.entries with
    | some t =>
      simp [cmdFlakePinRun, hu] at h
      subst h
      rfl
    | none =>
      cases hg : entriesFind (FlakeRef.parse aliasArg false) st.global.entries with
      | some t =>
        simp [cmdFlakePinRun, hu, hg] at h
        subst h
        rfl
      | none =>
        simp [cmdFlakePinRun, hu, hg] at h
  · intro hu t hg
    refine ⟨⟨⟨entriesInsertOrAssign (FlakeRef.parse aliasArg false) (resolve t)
      st.user.entries⟩, st.global⟩, ?_, entriesFind_insertOrAssign_self _ _ _, rfl⟩
    simp [cmdFlakePinRun, hu, hg]

/-- Witness for C6: alias only in the global registry; pin inserts the
resolved user entry and the global registry is unchanged. -/
theorem pin_frame_global_untouched_witness :
    entriesFind (FlakeRef.parse "nixpkgs" false) exPinStGlobal.user.entries = none ∧
    entriesFind (FlakeRef.parse "nixpkgs" false) exPinStGlobal.global.entries =
      some exTargetRef ∧
    (∃ st2, cmdFlakePinRun exResolve "nixpkgs" exPinStGlobal = Except.ok st2
      ∧ entriesFind (FlakeRef.parse "nixpkgs" false) st2.user.entries =
          some (exResolve exTargetRef)
      ∧ st2.global = exPinStGlobal.global) :=
  ⟨by decide, by decide,
   (pin_frame_global_untouched exResolve "nixpkgs" exPinStGlobal).2
     (by decide) exTargetRef (by decide)⟩

/-- C7: pin is idempotent, assuming the resolution collaborator maps an
already-resolved reference to itself: if one pin run persists state st1,
a second run on st1 persists exactly st1 again. -/
theorem pin_idempotent (resolve : FlakeRef → FlakeRef) (aliasArg : String) (st st1 : RegState)
    (hidem : ∀ r, resolve (resolve r) = resolve r)
    (h1 : cmdFlakePinRun resolve aliasArg st = Except.ok st1) :
    cmdFlakePinRun resolve aliasArg st1 = Except.ok st1 := by
  have key : ∀ (t : FlakeRef),
      st1 = ⟨⟨entriesInsertOrAssign (FlakeRef.parse aliasArg false) (resolve t)
        st.user.entries⟩, st.global⟩ →
      cmdFlakePinRun resolve aliasArg st1 = Except.ok st1 := by
    intro t h
    subst h
    have hfind : entriesFind (FlakeRef.parse aliasArg false)
        (entriesInsertOrAssign (FlakeRef.parse aliasArg false) (resolve t) st.user.entries) =
        some (resolve t) := entriesFind_insertOrAssign_self _ _ _
    simp [cmdFlakePinRun, hfind, hidem t, insertOrAssign_insertOrAssign]
  cases hu : entriesFind (FlakeRef.parse aliasArg false) st.user.entries with
  | some t =>
    simp [cmdFlakePinRun, hu] at h1
    exact key t h1.symm
  | none =>
    cases hg : entriesFind (FlakeRef.parse aliasArg false) st.global.entries with
    | some t =>
      simp [cmdFlakePinRun, hu, hg] at h1
      exact key t h1.symm
    | none =>
      simp [cmdFlakePinRun, hu, hg] at h1

/-- Witness for C7: pinning the example state once gives exPinStUserPinned;
pinning again (resolution idempotent by rfl) gives exPinStUserPinned
again. -/
theorem pin_idempotent_witness :
    cmdFlakePinRun exResolve "nixpkgs" exPinStUser = Except.ok exPinStUserPinned ∧
    cmdFlakePinRun exResolve "nixpkgs" exPinStUserPinned = Except.ok exPinStUserPinned :=
  ⟨rfl, pin_idempotent exResolve "nixpkgs" exPinStUser exPinStUserPinned (fun _ => rfl) rfl⟩

/-- C3: the deps command emits breadth-first with an explicit queue: for a
non-empty queue it emits the front node's non-flake deps, then the flake
info of each flake dep while enqueueing it, then continues with the rest of
the queue followed by those flake deps; on the scenario graph
root -> (depA, depB), depA -> (depC), the root's deps depA and depB are
emitted before depC, parents' deps before children's children. -/
theorem deps_breadth_first :
    (∀ (r : ResolvedFlake) (todo : List ResolvedFlake),
        depsEmit (r :: todo) =
          r.nonFlakeDeps.map DepInfo.nonFlakeInfo ++
          r.flakeDeps.map (fun p => DepInfo.flakeInfo p.2.flake) ++
          depsEmit (todo ++ r.flakeDeps.map (fun p => p.2)))
    ∧ cmdFlakeDepsRun exRoot =
        [DepInfo.flakeInfo (exFlake "depA" "github:a/a"),
         DepInfo.flakeInfo (exFlake "depB" "github:b/b"),
         DepInfo.nonFlakeInfo exNonFlakeX,
         DepInfo.flakeInfo (exFlake "depC" "github:c/c")] := by
  refine ⟨depsEmit_cons, ?_⟩
  simp [cmdFlakeDepsRun, depsEmit_cons, depsEmit_nil, exRoot, exDepA, exDepB, exDepC,
    ResolvedFlake.flakeDeps, ResolvedFlake.nonFlakeDeps, ResolvedFlake.flake]

end NixFlake
